import Mathlib

/-!
Verification development for the SuperSecureChat p2p_chat package.

Shallow embedding of the security boundary (`p2p_chat/security.py`), the
signaling codec (`p2p_chat/signaling.py`), the connection manager state
logic (`p2p_chat/rtc_peer.py`) and the file-transfer engine
(`p2p_chat/file_transfer_mixin.py`), together with proofs of the
spec-level claims about them.

Strings are modelled as `List Char` (Python `str` is a sequence of
Unicode code points; Lean `Char` is a Unicode scalar value, which covers
every value producible by the code under consideration).  Byte strings
are modelled as `List Nat` with every element `< 256`.  Python `float`
delays are modelled as `ℚ`; all delay values reachable in the code
(2.0 * 1.5 ^ k capped at 30.0) are small dyadic-times-powers-of-three
rationals that IEEE doubles represent exactly, so the model is exact.
-/

deriving instance DecidableEq for Except

namespace PyStr

/-- Whitespace set of Python `str.strip()` (Py_UNICODE_ISSPACE). -/
def isPySpace (c : Char) : Bool :=
  let n := c.toNat
  (0x09 ≤ n && n ≤ 0x0D) || (0x1C ≤ n && n ≤ 0x1F) || n = 0x20 ||
  n = 0x85 || n = 0xA0 || n = 0x1680 || (0x2000 ≤ n && n ≤ 0x200A) ||
  n = 0x2028 || n = 0x2029 || n = 0x202F || n = 0x205F || n = 0x3000

/-- Model of Python `str.strip()`: drop whitespace from both ends. -/
def pyStrip (l : List Char) : List Char :=
  ((l.dropWhile isPySpace).reverse.dropWhile isPySpace).reverse

/-- Model of `str.replace(old, '')` for `old = ".."`: left-to-right
non-overlapping removal of the two-character pattern. -/
def removeDotDot : List Char → List Char
  | '.' :: '.' :: rest => removeDotDot rest
  | c :: rest => c :: removeDotDot rest
  | [] => []

/-- Model of POSIX `os.path.basename`: the part after the last slash. -/
def basename (l : List Char) : List Char :=
  (l.reverse.takeWhile (fun c => c ≠ '/')).reverse

/-- Extension part of POSIX `os.path.splitext` for a slash-free name:
the suffix starting at the last dot, provided some character before
that dot is not itself a dot (so purely-leading dots yield no
extension). -/
def extOf (l : List Char) : List Char :=
  let r := l.reverse
  let after := r.takeWhile (fun c => c ≠ '.')
  if after.length = r.length then []
  else if (r.drop (after.length + 1)).any (fun c => c ≠ '.') then
    '.' :: after.reverse
  else []

end PyStr

namespace Security

open PyStr

/-- MAX_MESSAGE_LENGTH from security.py. -/
def MAX_MESSAGE_LENGTH : Nat := 8192

/-- MAX_MESSAGE_LINES from security.py. -/
def MAX_MESSAGE_LINES : Nat := 100

/-- MAX_FILE_SIZE from security.py: 100 MiB. -/
def MAX_FILE_SIZE : Int := 100 * 1024 * 1024

/-- MAX_FILENAME_LENGTH from security.py. -/
def MAX_FILENAME_LENGTH : Nat := 255

/-- DANGEROUS_PATTERN from security.py: the control-character class
`[\x00-\x08\x0b\x0c\x0e-\x1f\x7f-\x9f]`. -/
def isDangerousChar (c : Char) : Bool :=
  let n := c.toNat
  n ≤ 0x08 || n = 0x0B || n = 0x0C || (0x0E ≤ n && n ≤ 0x1F) ||
  (0x7F ≤ n && n ≤ 0x9F)

/-- ALLOWED_FILE_EXTENSIONS from security.py. -/
def ALLOWED_FILE_EXTENSIONS : List String :=
  [".txt", ".pdf", ".doc", ".docx", ".rtf", ".odt",
   ".jpg", ".jpeg", ".png", ".gif", ".bmp", ".svg", ".webp",
   ".mp3", ".wav", ".ogg", ".flac", ".aac", ".m4a",
   ".mp4", ".avi", ".mkv", ".webm", ".mov", ".flv",
   ".zip", ".rar", ".7z", ".tar", ".gz", ".bz2",
   ".py", ".js", ".html", ".css", ".json", ".xml", ".csv",
   ".epub", ".mobi"]

/-- DANGEROUS_FILE_EXTENSIONS from security.py. -/
def DANGEROUS_FILE_EXTENSIONS : List String :=
  [".exe", ".bat", ".cmd", ".com", ".pif", ".scr", ".vbs", ".js", ".jar",
   ".msi", ".deb", ".rpm", ".dmg", ".app", ".sh", ".ps1", ".psm1"]

/-- Typed refinement of the FileSecurityViolation / SecurityViolation
raise sites of security.py (one constructor per distinct raise). -/
inductive Violation where
  | filenameTooLong
  | filenameEmpty
  | filenameEmptyAfterSanitization
  | dangerousExtension
  | fileSizeNotPositive
  | fileTooLarge
  | extensionNotAllowed
  | usernameTooLong
  | messageTooLong
  | tooManyLines
  | emptyMessage
  deriving DecidableEq, Repr

/-- Core sanitization pipeline of `sanitize_filename` (security.py lines
110-121): control-character removal, basename, removal of `..`, `/`,
`\`, then leading dots.  Applied to the already-stripped filename. -/
def sanitizePipeline (f : List Char) : List Char :=
  let f := f.filter (fun c => !(isDangerousChar c))
  let f := basename f
  let f := removeDotDot f
  let f := f.filter (fun c => c ≠ '/')
  let f := f.filter (fun c => c ≠ '\\')
  f.dropWhile (fun c => c = '.')

/-- Lower-cased extension of a sanitized filename, as computed by
`os.path.splitext(filename)[1].lower()` (ASCII lowering). -/
def extLower (f : List Char) : String :=
  String.mk ((extOf f).map Char.toLower)

/-- Model of `sanitize_filename` (security.py lines 84-131). -/
def sanitize_filename (filename : List Char) : Except Violation (List Char) :=
  if (pyStrip filename).length > MAX_FILENAME_LENGTH then
    .error .filenameTooLong
  else if (pyStrip filename).isEmpty then .error .filenameEmpty
  else if (sanitizePipeline (pyStrip filename)).isEmpty then
    .error .filenameEmptyAfterSanitization
  else if DANGEROUS_FILE_EXTENSIONS.contains
      (extLower (sanitizePipeline (pyStrip filename))) then
    .error .dangerousExtension
  else .ok (sanitizePipeline (pyStrip filename))

/-- Model of `validate_file_transfer` (security.py lines 134-168). -/
def validate_file_transfer (filename : List Char) (file_size : Int)
    (allow_any_extension : Bool) : Except Violation (List Char) :=
  if file_size ≤ 0 then .error .fileSizeNotPositive
  else if file_size > MAX_FILE_SIZE then .error .fileTooLarge
  else
    match sanitize_filename filename with
    | .error e => .error e
    | .ok f =>
      if !allow_any_extension then
        if extLower f ≠ "" && !(ALLOWED_FILE_EXTENSIONS.contains (extLower f)) then
          .error .extensionNotAllowed
        else .ok f
      else .ok f

end Security

namespace Security

open PyStr

/-- Characters admitted by the username filter in `sanitize_username`:
`string.ascii_letters + string.digits + ' ._-'`. -/
def isAllowedUsernameChar (c : Char) : Bool :=
  (('A' ≤ c && c ≤ 'Z') || ('a' ≤ c && c ≤ 'z') || ('0' ≤ c && c ≤ '9') ||
   c = ' ' || c = '.' || c = '_' || c = '-')

/-- Model of `sanitize_username` (security.py lines 216-260). -/
def sanitize_username (username : List Char) : Except Violation (List Char) :=
  let u := pyStrip username
  if u.length > 50 then .error .usernameTooLong
  else
    let u := u.filter (fun c => !(isDangerousChar c))
    if u.isEmpty then .ok "Anonymous".data
    else
      let u := u.map (fun c => if c = '|' then '_' else c)
      let u := u.filter isAllowedUsernameChar
      if u.isEmpty then .ok "Anonymous".data else .ok u

/-- Cleaning step of `_sanitize_message_content`: control-character
removal followed by `strip()`. -/
def contentClean (content : List Char) : List Char :=
  pyStrip (content.filter (fun c => !(isDangerousChar c)))

/-- Model of `_sanitize_message_content` (security.py lines 293-330).
The line count of `content.split('\n')` is the newline count plus one. -/
def sanitizeMessageContent (content : List Char) : Except Violation (List Char) :=
  if content.length > MAX_MESSAGE_LENGTH then .error .messageTooLong
  else if content.count '\n' + 1 > MAX_MESSAGE_LINES then .error .tooManyLines
  else if (contentClean content).isEmpty then .error .emptyMessage
  else .ok (contentClean content)

/-- Model of `sanitize_message` (security.py lines 263-290).  When the
message contains the separator `|`, `message.split("|", 1)` yields the
part before the first `|` and the remainder; both halves are sanitized
and rejoined (the `len(parts) == 2` guard in the source always holds on
this branch). -/
def sanitize_message (message : List Char) : Except Violation (List Char) :=
  if message.contains '|' then
    let username := message.takeWhile (fun c => c ≠ '|')
    let content := (message.dropWhile (fun c => c ≠ '|')).tail
    match sanitize_username username, sanitizeMessageContent content with
    | .ok su, .ok sc => .ok (su ++ '|' :: sc)
    | .error e, _ => .error e
    | .ok _, .error e => .error e
  else sanitizeMessageContent message

end Security

namespace FileTransferMixin

/-- Adaptive inter-chunk delay of `_send_file_chunks`
(file_transfer_mixin.py lines 363-369), in milliseconds
(0.08 s = 80 ms, 0.06 s = 60 ms, 0.04 s = 40 ms). -/
def chunkDelayMs (file_size : Int) : Nat :=
  if file_size > 100 * 1024 * 1024 then 80
  else if file_size > 10 * 1024 * 1024 then 60
  else 40

end FileTransferMixin

namespace Security

open PyStr

/-- Helper: when the sanitized name carries a deny-listed extension,
`sanitize_filename` returns an error on every input. -/
theorem sanitize_filename_err_of_deny (fn : List Char)
    (h : DANGEROUS_FILE_EXTENSIONS.contains
      (extLower (sanitizePipeline (pyStrip fn))) = true) :
    ∃ e, sanitize_filename fn = .error e := by
  unfold sanitize_filename
  split
  · exact ⟨_, rfl⟩
  split
  · exact ⟨_, rfl⟩
  split
  · exact ⟨_, rfl⟩
  exact ⟨_, rfl⟩

/-- C3: `validate_file_transfer` strips path-traversal components; the
name `"../../etc/passwd"` at size 10 sanitizes to `"passwd"` and is
accepted for either value of `allow_any_extension` (extensionless names
pass), while any filename whose sanitized form carries a deny-listed
extension is rejected with a violation regardless of the
`allow_any_extension` flag and the file size. -/
theorem validate_file_transfer_denies_dangerous_ext :
    (∀ flag, validate_file_transfer "../../etc/passwd".data 10 flag =
      .ok "passwd".data) ∧
    (∀ fn sz flag,
      DANGEROUS_FILE_EXTENSIONS.contains
        (extLower (sanitizePipeline (pyStrip fn))) = true →
      ∃ e, validate_file_transfer fn sz flag = .error e) := by
  constructor
  · intro flag; cases flag <;> decide
  · intro fn sz flag h
    obtain ⟨e, he⟩ := sanitize_filename_err_of_deny fn h
    simp only [validate_file_transfer, he]
    split
    · exact ⟨_, rfl⟩
    split
    · exact ⟨_, rfl⟩
    exact ⟨e, rfl⟩

/-- Witness for the deny-list half of
`validate_file_transfer_denies_dangerous_ext` at `"x.exe"`, size 10. -/
theorem validate_file_transfer_denies_dangerous_ext_witness :
    ∃ e, validate_file_transfer "x.exe".data 10 true = .error e :=
  validate_file_transfer_denies_dangerous_ext.2 "x.exe".data 10 true (by decide)

end Security

namespace Security

open PyStr

/-- Helper: `sanitize_filename` never reports a size violation (its
raise sites are filename-related only). -/
theorem sanitize_filename_not_size_violation (fn : List Char) :
    sanitize_filename fn ≠ .error .fileSizeNotPositive ∧
    sanitize_filename fn ≠ .error .fileTooLarge := by
  unfold sanitize_filename
  split <;> try simp
  split <;> try simp
  split <;> try simp
  split <;> simp

/-- C9: `validate_file_transfer` raises a size violation exactly for
sizes outside (0, 100 MiB]: non-positive sizes give the positivity
violation, sizes above the 100 MiB cap give the size-limit violation
(a 250 MiB file concretely so), sizes inside the interval never produce
a size violation, and exactly 100 MiB is accepted. -/
theorem validate_file_transfer_size_spec :
    (∀ fn flag (sz : Int), sz ≤ 0 →
      validate_file_transfer fn sz flag = .error .fileSizeNotPositive) ∧
    (∀ fn flag (sz : Int), MAX_FILE_SIZE < sz →
      validate_file_transfer fn sz flag = .error .fileTooLarge) ∧
    (∀ fn flag (sz : Int), 0 < sz → sz ≤ MAX_FILE_SIZE →
      validate_file_transfer fn sz flag ≠ .error .fileSizeNotPositive ∧
      validate_file_transfer fn sz flag ≠ .error .fileTooLarge) ∧
    validate_file_transfer "file.txt".data MAX_FILE_SIZE false =
      .ok "file.txt".data ∧
    validate_file_transfer "file.txt".data (250 * 1024 * 1024) false =
      .error .fileTooLarge := by
  refine ⟨?_, ?_, ?_, by decide, by decide⟩
  · intro fn flag sz h
    unfold validate_file_transfer
    rw [if_pos h]
  · intro fn flag sz h
    have hM : (0 : Int) < MAX_FILE_SIZE := by decide
    unfold validate_file_transfer
    rw [if_neg (by omega), if_pos (by omega)]
  · intro fn flag sz h0 h1
    rcases hs : sanitize_filename fn with e | f
    · have hns := sanitize_filename_not_size_violation fn
      rw [hs] at hns
      unfold validate_file_transfer
      rw [if_neg (by omega), if_neg (by omega), hs]
      exact hns
    · unfold validate_file_transfer
      rw [if_neg (by omega), if_neg (by omega), hs]
      constructor <;>
        · cases flag
          · simp only [Bool.not_false, if_true]
            split <;> simp
          · simp

/-- Witness for `validate_file_transfer_size_spec` at concrete inputs:
size -1 gives the positivity violation, 250 MiB exceeds the cap, and a
5-byte file named a.txt inside the interval yields no size violation. -/
theorem validate_file_transfer_size_spec_witness :
    validate_file_transfer "a.txt".data (-1) false =
      .error .fileSizeNotPositive ∧
    validate_file_transfer "a.txt".data (200 * 1024 * 1024) false =
      .error .fileTooLarge ∧
    validate_file_transfer "a.txt".data 5 false ≠ .error .fileSizeNotPositive ∧
    validate_file_transfer "a.txt".data 5 false ≠ .error .fileTooLarge := by
  refine ⟨?_, ?_, ?_, ?_⟩
  · exact validate_file_transfer_size_spec.1 "a.txt".data false (-1) (by decide)
  · exact validate_file_transfer_size_spec.2.1 "a.txt".data false
      (200 * 1024 * 1024) (by decide)
  · exact (validate_file_transfer_size_spec.2.2.1 "a.txt".data false 5
      (by decide) (by decide)).1
  · exact (validate_file_transfer_size_spec.2.2.1 "a.txt".data false 5
      (by decide) (by decide)).2

end Security

namespace FileTransferMixin

open Security

/-- C10: the validation `send_file` performs (with
`allow_any_extension = True`) still enforces the 100 MiB cap, so any
file size that reaches the chunked-send phase is at most 100 MiB; on
such sizes the adaptive inter-chunk delay never takes the 80 ms
large-file branch and equals 60 ms for files over 10 MiB and 40 ms
otherwise. -/
theorem send_file_delay_spec (fn : List Char) (sz : Int) (f : List Char)
    (h : validate_file_transfer fn sz true = .ok f) :
    sz ≤ MAX_FILE_SIZE ∧ chunkDelayMs sz ≠ 80 ∧
    chunkDelayMs sz = (if sz > 10 * 1024 * 1024 then 60 else 40) := by
  have hsz : ¬(sz ≤ 0) ∧ ¬(MAX_FILE_SIZE < sz) := by
    by_contra hc
    rw [Decidable.not_and_iff_or_not, not_not, not_not] at hc
    rcases hc with hc | hc
    · rw [validate_file_transfer_size_spec.1 fn true sz hc] at h
      exact Except.noConfusion h
    · rw [validate_file_transfer_size_spec.2.1 fn true sz hc] at h
      exact Except.noConfusion h
  have hle : sz ≤ MAX_FILE_SIZE := by omega
  refine ⟨hle, ?_, ?_⟩
  · unfold chunkDelayMs
    rw [if_neg (by unfold MAX_FILE_SIZE at hle; omega)]
    split <;> omega
  · unfold chunkDelayMs
    rw [if_neg (by unfold MAX_FILE_SIZE at hle; omega)]

/-- Witness for `send_file_delay_spec` at a 5-byte text file. -/
theorem send_file_delay_spec_witness :
    validate_file_transfer "a.txt".data 5 true = .ok "a.txt".data ∧
    5 ≤ MAX_FILE_SIZE ∧ chunkDelayMs 5 ≠ 80 ∧ chunkDelayMs 5 = 40 := by
  refine ⟨by decide, ?_⟩
  have := send_file_delay_spec "a.txt".data 5 "a.txt".data (by decide)
  simpa using this

end FileTransferMixin

namespace PyStr

/-- Dropping a prefix twice is the same as dropping it once. -/
theorem dropWhile_idem (p : Char → Bool) (l : List Char) :
    List.dropWhile p (List.dropWhile p l) = List.dropWhile p l := by
  induction l with
  | nil => rfl
  | cons a t ih =>
    by_cases h : p a
    · simp [List.dropWhile_cons, h, ih]
    · simp [List.dropWhile_cons, h]

/-- The head of `dropWhile p l`, when it exists, fails `p`. -/
theorem head?_dropWhile_false (p : Char → Bool) (l : List Char) (a : Char)
    (h : (List.dropWhile p l).head? = some a) : p a = false := by
  induction l with
  | nil => simp at h
  | cons b t ih =>
    by_cases hb : p b
    · rw [List.dropWhile_cons, if_pos hb] at h
      exact ih h
    · rw [List.dropWhile_cons, if_neg hb] at h
      simp only [List.head?_cons, Option.some.injEq] at h
      subst h
      exact Bool.eq_false_iff.mpr hb

/-- A list whose head (if any) fails `p` is untouched by `dropWhile`. -/
theorem dropWhile_eq_self_of_head (p : Char → Bool) (l : List Char)
    (h : ∀ a, l.head? = some a → p a = false) : List.dropWhile p l = l := by
  cases l with
  | nil => rfl
  | cons a t =>
    rw [List.dropWhile_cons, if_neg]
    simp [h a rfl]

/-- Stripping yields a sublist of the original list. -/
theorem pyStrip_sublist (l : List Char) : (pyStrip l).Sublist l := by
  unfold pyStrip
  have h2 : (List.dropWhile isPySpace
      (List.dropWhile isPySpace l).reverse).Sublist
      (List.dropWhile isPySpace l).reverse := List.dropWhile_sublist _
  have h3 := h2.reverse
  rw [List.reverse_reverse] at h3
  exact h3.trans (List.dropWhile_sublist _)

/-- Reversed form of `pyStrip`. -/
theorem pyStrip_reverse_eq (l : List Char) :
    (pyStrip l).reverse =
      List.dropWhile isPySpace (List.dropWhile isPySpace l).reverse := by
  unfold pyStrip
  rw [List.reverse_reverse]

/-- Python strip is idempotent. -/
theorem pyStrip_idem (l : List Char) : pyStrip (pyStrip l) = pyStrip l := by
  have hfront : List.dropWhile isPySpace (pyStrip l) = pyStrip l := by
    apply dropWhile_eq_self_of_head
    intro a ha
    unfold pyStrip at ha
    rw [List.head?_reverse] at ha
    have hne : List.dropWhile isPySpace (List.dropWhile isPySpace l).reverse ≠ [] := by
      intro hnil
      rw [hnil] at ha
      simp at ha
    obtain ⟨t, ht⟩ := List.dropWhile_suffix
      (l := (List.dropWhile isPySpace l).reverse) isPySpace
    have hu : ((List.dropWhile isPySpace l).reverse).getLast? = some a := by
      rw [← ht, List.getLast?_append_of_ne_nil _ hne]
      exact ha
    rw [List.getLast?_reverse] at hu
    exact head?_dropWhile_false _ _ _ hu
  conv_lhs => rw [pyStrip]
  rw [hfront, pyStrip_reverse_eq, dropWhile_idem, ← pyStrip_reverse_eq,
    List.reverse_reverse]

end PyStr

namespace Security

open PyStr

/-- C6 counterexample: `sanitize_message` is not idempotent.  On the
message `"a #|hi"` the first call succeeds with `"a |hi"` (the username
filter drops `#` but keeps the space it exposed at the end of the
username), yet sanitizing `"a |hi"` again re-strips the username and
returns the different string `"a|hi"`. -/
theorem sanitize_message_not_idempotent :
    sanitize_message "a #|hi".data = .ok "a |hi".data ∧
    sanitize_message "a |hi".data = .ok "a|hi".data ∧
    "a |hi".data ≠ "a|hi".data := by
  refine ⟨by decide, by decide, by decide⟩

/-- Elements of the cleaned content belong to the original content. -/
theorem contentClean_subset (x : List Char) : contentClean x ⊆
    x.filter (fun c => !(isDangerousChar c)) :=
  (pyStrip_sublist _).subset

/-- Cleaning is idempotent: the cleaned content has no dangerous
characters left and is already stripped. -/
theorem contentClean_idem (x : List Char) :
    contentClean (contentClean x) = contentClean x := by
  unfold contentClean
  rw [List.filter_eq_self.mpr]
  · exact pyStrip_idem _
  · intro a ha
    have hmem : a ∈ x.filter (fun c => !(isDangerousChar c)) :=
      contentClean_subset x ha
    exact (List.mem_filter.mp hmem).2

/-- C6 amended: `sanitize_message` is idempotent on messages without
the username separator `|`: whenever the first call succeeds, applying
it again to the result succeeds and returns the result unchanged.  (On
`username|content` messages a second pass may re-trim whitespace that
the username character filter exposed, as the counterexample shows.) -/
theorem sanitize_message_idempotent_without_separator
    (x y : List Char) (hx : x.contains '|' = false)
    (h : sanitize_message x = .ok y) : sanitize_message y = .ok y := by
  unfold sanitize_message at h
  rw [hx] at h
  simp only [Bool.false_eq_true, if_false] at h
  unfold sanitizeMessageContent at h
  by_cases h1 : x.length > MAX_MESSAGE_LENGTH
  · rw [if_pos h1] at h
    exact absurd h (by simp)
  rw [if_neg h1] at h
  by_cases h2 : x.count '\n' + 1 > MAX_MESSAGE_LINES
  · rw [if_pos h2] at h
    exact absurd h (by simp)
  rw [if_neg h2] at h
  by_cases h3 : (contentClean x).isEmpty
  · rw [if_pos h3] at h
    exact absurd h (by simp)
  rw [if_neg h3] at h
  injection h with h
  subst h
  have hsub : (contentClean x).Sublist x :=
    (pyStrip_sublist _).trans (List.filter_sublist x)
  have hy_nopipe : (contentClean x).contains '|' = false := by
    have hxnp : '|' ∉ x := by simp_all
    have : '|' ∉ contentClean x := fun hm => hxnp (hsub.subset hm)
    simp_all
  unfold sanitize_message
  rw [hy_nopipe]
  simp only [Bool.false_eq_true, if_false]
  unfold sanitizeMessageContent
  rw [if_neg (by have := hsub.length_le; omega),
    if_neg (by have := hsub.count_le '\n'; omega),
    contentClean_idem, if_neg h3]

/-- Witness for `sanitize_message_idempotent_without_separator` at the
separator-free message `" hi "`. -/
theorem sanitize_message_idempotent_without_separator_witness :
    " hi ".data.contains '|' = false ∧
    sanitize_message " hi ".data = .ok "hi".data ∧
    sanitize_message "hi".data = .ok "hi".data :=
  ⟨by decide, by decide,
    sanitize_message_idempotent_without_separator " hi ".data "hi".data
      (by decide) (by decide)⟩

end Security

namespace RtcPeer

/-- Outcome of `RTCPeer.send` (rtc_peer.py lines 370-396): either an
error is emitted without touching the data channel, or the sanitized
payload is handed to `channel.send`. -/
inductive SendOutcome where
  | errorNotConnected
  | errorInvalidMessage (e : Security.Violation)
  | sent (payload : List Char)
  deriving DecidableEq

/-- Model of `RTCPeer.send` (rtc_peer.py lines 370-396).  The guard
`not self.channel or self.channel.readyState != "open"` is modelled by
the single flag `channelOpen`; on failure of `sanitize_message` the
error is reported and nothing is sent; otherwise the sanitized message
(not the original) is sent.  (The `except` around `channel.send`
reports transport errors after the send attempt and is outside this
state model.) -/
def send (channelOpen : Bool) (message : List Char) : SendOutcome :=
  if !channelOpen then .errorNotConnected
  else
    match Security.sanitize_message message with
    | .error e => .errorInvalidMessage e
    | .ok s => .sent s

/-- C8: `send` hands a payload to the data channel exactly when the
channel is open and the message sanitizes successfully, and that
payload is the sanitized message; it refuses with an error exactly when
the channel is not open or validation fails. -/
theorem send_spec (channelOpen : Bool) (message : List Char) :
    (∀ p, send channelOpen message = .sent p ↔
      (channelOpen = true ∧ Security.sanitize_message message = .ok p)) ∧
    (send channelOpen message = .errorNotConnected ↔ channelOpen = false) ∧
    (∀ e, send channelOpen message = .errorInvalidMessage e ↔
      (channelOpen = true ∧ Security.sanitize_message message = .error e)) := by
  cases channelOpen
  · refine ⟨fun p => ?_, ?_, fun e => ?_⟩ <;> simp [send]
  · rcases hs : Security.sanitize_message message with e | s <;>
      refine ⟨fun p => ?_, ?_, fun e => ?_⟩ <;>
      simp [send, hs]

end RtcPeer

namespace RtcPeer

/-- Reconnection configuration fields of `RTCPeer.__init__`
(rtc_peer.py lines 49-54). -/
structure ReconConfig where
  max_reconnection_attempts : Nat
  max_reconnection_delay : ℚ
  deriving DecidableEq

/-- Default configuration: `max_reconnection_attempts = 5`,
`max_reconnection_delay = 30.0`. -/
def defaultReconConfig : ReconConfig := ⟨5, 30⟩

/-- Mutable reconnection state of `RTCPeer`:
`reconnection_attempts` and `reconnection_delay`. -/
structure ReconState where
  reconnection_attempts : Nat
  reconnection_delay : ℚ
  deriving DecidableEq

/-- Initial state: zero attempts, `reconnection_delay = 2.0`. -/
def initialReconState : ReconState := ⟨0, 2⟩

/-- Model of one failed reconnection round.  `_attempt_reconnection`
(rtc_peer.py lines 434-450) refuses when the attempt counter has
reached `max_reconnection_attempts` (returning `none`, reconnection
abandoned) and otherwise increments the counter;
`_perform_reconnection` (lines 452-482) then sleeps the current
`reconnection_delay` and applies the exponential-backoff update
`reconnection_delay = min(reconnection_delay * 1.5,
max_reconnection_delay)`.  The result carries the delay actually slept
together with the successor state.  All reachable delay values are
exactly representable IEEE doubles, so ℚ models the float arithmetic
exactly. -/
def reconStep (cfg : ReconConfig) (s : ReconState) : Option (ℚ × ReconState) :=
  if s.reconnection_attempts ≥ cfg.max_reconnection_attempts then none
  else some (s.reconnection_delay,
    ⟨s.reconnection_attempts + 1,
      min (s.reconnection_delay * (3 / 2)) cfg.max_reconnection_delay⟩)

/-- Trace of up to `n` consecutive failed reconnection rounds: the list
of backoff delays actually slept, and the final state. -/
def reconTrace (cfg : ReconConfig) : Nat → ReconState → List ℚ × ReconState
  | 0, s => ([], s)
  | n + 1, s =>
    match reconStep cfg s with
    | none => ([], s)
    | some (d, s1) => ((d :: (reconTrace cfg n s1).1), (reconTrace cfg n s1).2)

/-- Invariant lemma for reconnection traces: under a positive delay
bounded by the cap, the attempt counter stays bounded, every slept
delay is positive and capped, the first slept delay is the incoming
delay, consecutive slept delays follow the min-update law, and the
slept delays are monotonically non-decreasing. -/
theorem reconTrace_invariant (cfg : ReconConfig)
    (hmax : 0 < cfg.max_reconnection_delay) :
    ∀ (n : Nat) (s : ReconState), 0 < s.reconnection_delay →
    s.reconnection_delay ≤ cfg.max_reconnection_delay →
    ((reconTrace cfg n s).2.reconnection_attempts ≤
      max s.reconnection_attempts cfg.max_reconnection_attempts) ∧
    (∀ d ∈ (reconTrace cfg n s).1,
      0 < d ∧ d ≤ cfg.max_reconnection_delay) ∧
    (∀ d, (reconTrace cfg n s).1.head? = some d →
      d = s.reconnection_delay) ∧
    List.Chain'
      (fun a b => b = min (a * (3 / 2)) cfg.max_reconnection_delay)
      (reconTrace cfg n s).1 ∧
    List.Chain' (fun a b => a ≤ b) (reconTrace cfg n s).1 := by
  intro n
  induction n with
  | zero =>
    intro s hpos hle
    refine ⟨by simp [reconTrace, Nat.le_max_left], by simp [reconTrace],
      by simp [reconTrace], by simp [reconTrace], by simp [reconTrace]⟩
  | succ n ih =>
    intro s hpos hle
    by_cases hstop : s.reconnection_attempts ≥ cfg.max_reconnection_attempts
    · simp only [reconTrace, reconStep, if_pos hstop]
      refine ⟨Nat.le_max_left _ _, by simp, by simp, by simp, by simp⟩
    · have hupd_pos : 0 < min (s.reconnection_delay * (3 / 2))
          cfg.max_reconnection_delay :=
        lt_min (by linarith) hmax
      have hupd_le : min (s.reconnection_delay * (3 / 2))
          cfg.max_reconnection_delay ≤ cfg.max_reconnection_delay :=
        min_le_right _ _
      have hmono : s.reconnection_delay ≤
          min (s.reconnection_delay * (3 / 2)) cfg.max_reconnection_delay :=
        le_min (by linarith) hle
      obtain ⟨iha, ihd, ihh, ihc, ihm⟩ :=
        ih ⟨s.reconnection_attempts + 1,
          min (s.reconnection_delay * (3 / 2)) cfg.max_reconnection_delay⟩
          hupd_pos hupd_le
      simp only [reconTrace, reconStep, if_neg hstop]
      refine ⟨?_, ?_, ?_, ?_, ?_⟩
      · have h1 : s.reconnection_attempts + 1 ≤ cfg.max_reconnection_attempts := by
          omega
        refine le_trans iha ?_
        rw [show max (s.reconnection_attempts + 1)
            cfg.max_reconnection_attempts = cfg.max_reconnection_attempts
          from max_eq_right h1]
        exact Nat.le_max_right _ _
      · intro d hd
        rcases List.mem_cons.mp hd with rfl | hd
        · exact ⟨hpos, hle⟩
        · exact ihd d hd
      · intro d hd
        simp only [List.head?_cons, Option.some.injEq] at hd
        exact hd.symm
      · rw [List.chain'_cons']
        exact ⟨fun b hb => (ihh b hb).symm ▸ rfl, ihc⟩
      · rw [List.chain'_cons']
        refine ⟨fun b hb => ?_, ihm⟩
        rw [ihh b hb]
        exact hmono

/-- C4: along every execution of the reconnection logic started from
the defaults (counter 0, delay 2 s, `maxAttempts = 5`,
`maxDelay = 30 s`), the attempt counter never exceeds 5, the sequence
of backoff delays actually slept between attempts is monotonically
non-decreasing, bounded above by 30 s, starts at the initial 2 s, and
follows the update law `delay = min(delay * 1.5, maxDelay)`. -/
theorem reconnection_backoff_spec (n : Nat) :
    (reconTrace defaultReconConfig n initialReconState).2.reconnection_attempts
      ≤ 5 ∧
    List.Chain' (fun a b => a ≤ b)
      (reconTrace defaultReconConfig n initialReconState).1 ∧
    (∀ d ∈ (reconTrace defaultReconConfig n initialReconState).1, d ≤ 30) ∧
    (∀ d, (reconTrace defaultReconConfig n initialReconState).1.head? =
        some d → d = 2) ∧
    List.Chain' (fun a b => b = min (a * (3 / 2)) 30)
      (reconTrace defaultReconConfig n initialReconState).1 := by
  obtain ⟨ha, hd, hh, hc, hm⟩ :=
    reconTrace_invariant defaultReconConfig (by norm_num [defaultReconConfig])
      n initialReconState (by norm_num [initialReconState])
      (by norm_num [initialReconState, defaultReconConfig])
  exact ⟨by simpa [defaultReconConfig, initialReconState] using ha,
    hm, fun d hdm => (hd d hdm).2, hh, hc⟩

end RtcPeer

namespace RtcPeer

/-- Transport connection states of `RTCPeerConnection.connectionState`
as observed by `_on_connection_state_change`. -/
inductive ConnState where
  | new
  | connecting
  | connected
  | disconnected
  | failed
  | closed
  deriving DecidableEq

/-- Side effects performed by the connection manager, one constructor
per distinct call site relevant to the heartbeat / reconnection
claims. -/
inductive Action where
  | emit (event : String)
  | logWarning
  | logSecurityStatus
  | sendHeartbeat
  | startHeartbeat
  | stopHeartbeat
  | stopReconnection
  | attemptReconnection
  | cleanupFileTransfers
  | cleanupVoiceChat
  | addAudioTrack
  deriving DecidableEq

/-- Session-level mutable state of `RTCPeer` read or written by
`_heartbeat_loop` and `_on_connection_state_change`.
`connectionState` mirrors `self.pc.connectionState` (set by the
transport), `channelOpen` mirrors
`self.channel.readyState == "open"`. -/
structure PeerState where
  connectionState : ConnState
  channelOpen : Bool
  reconnection_enabled : Bool
  hasStoredDescription : Bool
  voice_enabled : Bool
  reconnection_attempts : Nat
  reconnection_delay : ℚ
  heartbeat_interval : ℚ
  last_heartbeat_response : ℚ
  deriving DecidableEq

/-- Model of the `is_connected` property (rtc_peer.py lines 427-432). -/
def is_connected (s : PeerState) : Bool :=
  (s.connectionState = ConnState.connected) && s.channelOpen

/-- Model of one iteration of the `while` body of `_heartbeat_loop`
(rtc_peer.py lines 536-566): if the peer is no longer connected the
loop exits; otherwise, when the channel is open, a heartbeat control
message is sent and, when no `heartbeat_response` has been seen for
more than `heartbeat_interval * 10`, a warning is logged (the source
comments that reconnection is deliberately not triggered there, WebRTC
state changes handle it); when the channel is not open the loop exits.
Returns the state after the iteration, the actions performed, and
whether the loop continues. -/
def heartbeatIter (s : PeerState) (now : ℚ) : PeerState × List Action × Bool :=
  if !(is_connected s) then (s, [], false)
  else if s.channelOpen then
    (s,
     Action.sendHeartbeat ::
       (if now - s.last_heartbeat_response > s.heartbeat_interval * 10 then
         [Action.logWarning]
       else []),
     true)
  else (s, [], false)

/-- State after `_on_connection_state_change` observes `connected`:
reconnection counter and delay are reset (rtc_peer.py lines 87-99). -/
def stateOnConnected (s : PeerState) : PeerState :=
  { s with
    connectionState := ConnState.connected
    reconnection_attempts := 0
    reconnection_delay := 2 }

/-- Model of `_on_connection_state_change` (rtc_peer.py lines 79-124).
The transport itself has already moved `pc.connectionState` to `st`;
the handler reads it, emits events, and manages heartbeat /
reconnection: on `connected` it resets the reconnection counter and
delay and starts the heartbeat; on `closed` it cleans up; on `failed`
or `disconnected` it stops the heartbeat and, exactly when reconnection
is enabled and a stored description exists, calls
`_attempt_reconnection`. -/
def onConnectionStateChange (s : PeerState) (st : ConnState) :
    PeerState × List Action :=
  match st with
  | ConnState.connected =>
    (stateOnConnected s,
     [Action.emit "connected", Action.logSecurityStatus,
       Action.startHeartbeat] ++
       (if s.voice_enabled then [Action.addAudioTrack] else []))
  | ConnState.closed =>
    ({ s with connectionState := ConnState.closed },
     [Action.emit "closed", Action.cleanupFileTransfers,
       Action.cleanupVoiceChat, Action.stopHeartbeat,
       Action.stopReconnection])
  | ConnState.failed =>
    ({ s with connectionState := ConnState.failed },
     [Action.emit "failed", Action.cleanupFileTransfers,
       Action.cleanupVoiceChat, Action.stopHeartbeat] ++
       (if s.reconnection_enabled && s.hasStoredDescription then
         [Action.attemptReconnection]
       else []))
  | ConnState.disconnected =>
    ({ s with connectionState := ConnState.disconnected },
     [Action.emit "disconnected", Action.stopHeartbeat] ++
       (if s.reconnection_enabled && s.hasStoredDescription then
         [Action.attemptReconnection]
       else []))
  | st => ({ s with connectionState := st }, [])

end RtcPeer

namespace RtcPeer

/-- C5: a heartbeat-loop iteration never changes the session state (in
particular the connection state) and never initiates reconnection; when
the response has been missing for more than 10 heartbeat intervals the
only extra effect is a logged warning; the reconnection trigger lives
solely in the transport connection-state-change handler, which fires it
on `failed` and `disconnected` exactly when reconnection is enabled and
a stored description exists. -/
theorem heartbeat_monitor_passive (s : PeerState) (now : ℚ) :
    (heartbeatIter s now).1 = s ∧
    (heartbeatIter s now).1.connectionState = s.connectionState ∧
    Action.attemptReconnection ∉ (heartbeatIter s now).2.1 ∧
    (Action.logWarning ∈ (heartbeatIter s now).2.1 ↔
      (is_connected s = true ∧
        now - s.last_heartbeat_response > s.heartbeat_interval * 10)) ∧
    (Action.attemptReconnection ∈
        (onConnectionStateChange s ConnState.failed).2 ↔
      (s.reconnection_enabled = true ∧ s.hasStoredDescription = true)) ∧
    (Action.attemptReconnection ∈
        (onConnectionStateChange s ConnState.disconnected).2 ↔
      (s.reconnection_enabled = true ∧ s.hasStoredDescription = true)) := by
  have hA : (heartbeatIter s now).1 = s := by
    unfold heartbeatIter
    split
    · rfl
    split
    · rfl
    · rfl
  have hE : Action.attemptReconnection ∈
      (onConnectionStateChange s ConnState.failed).2 ↔
      (s.reconnection_enabled = true ∧ s.hasStoredDescription = true) := by
    unfold onConnectionStateChange
    rcases hre : s.reconnection_enabled <;>
      rcases hsd : s.hasStoredDescription <;> simp
  have hF : Action.attemptReconnection ∈
      (onConnectionStateChange s ConnState.disconnected).2 ↔
      (s.reconnection_enabled = true ∧ s.hasStoredDescription = true) := by
    unfold onConnectionStateChange
    rcases hre : s.reconnection_enabled <;>
      rcases hsd : s.hasStoredDescription <;> simp
  have hC : Action.attemptReconnection ∉ (heartbeatIter s now).2.1 := by
    unfold heartbeatIter
    split
    · simp
    split
    · split <;> simp
    · simp
  have hD : Action.logWarning ∈ (heartbeatIter s now).2.1 ↔
      (is_connected s = true ∧
        now - s.last_heartbeat_response > s.heartbeat_interval * 10) := by
    by_cases hc : is_connected s = true
    · have hch : s.channelOpen = true := by
        simp [is_connected] at hc
        exact hc.2
      by_cases hw : now - s.last_heartbeat_response > s.heartbeat_interval * 10
      · simp [heartbeatIter, hc, hch, hw]
      · simp [heartbeatIter, hc, hch, hw]
    · rw [Bool.not_eq_true] at hc
      simp [heartbeatIter, hc]
  exact ⟨hA, by rw [hA], hC, hD, hE, hF⟩

end RtcPeer

namespace FileTransferMixin

/-- State of one `FileTransfer` object (file_transfer.py lines 10-23).
`file_handle` records whether an open staging handle is attached
(`file_handle is not None`); the byte contents written are not
modelled. -/
structure Transfer where
  filename : List Char
  file_size : Nat
  checksum : String
  transfer_id : String
  bytes_received : Nat
  is_complete : Bool
  file_handle : Bool
  temp_path : Option String
  save_path : Option String
  deriving DecidableEq

/-- State effect of `_complete_file_transfer` on the selected transfer
(file_transfer_mixin.py lines 231-295): an already-complete transfer is
left alone; otherwise the handle is closed and, when the staging file
exists and its checksum verifies (`intact`), the transfer is marked
complete and kept; on a failed verification the error path runs
`_cleanup_file_transfer`, which removes the entry (`none`). -/
def completeTransfer (t : Transfer) (intact : Bool) : Option Transfer :=
  if t.is_complete then some t
  else if intact then some { t with file_handle := false, is_complete := true }
  else none

/-- Model of `_handle_binary_message` (file_transfer_mixin.py lines
65-116) acting on the transfer table (a Python dict in insertion
order): the loop scans for the first transfer that is not complete and
has an open staging handle, adds the chunk length to its
`bytes_received`, completes the transfer when `bytes_received` reaches
`file_size`, and breaks; when no such transfer exists the chunk is
dropped with a warning and the table is untouched. -/
def handleBinary (tbl : List (String × Transfer)) (len : Nat)
    (intact : Bool) : List (String × Transfer) :=
  match tbl with
  | [] => []
  | (tid, t) :: rest =>
    if !t.is_complete && t.file_handle then
      let t1 : Transfer := { t with bytes_received := t.bytes_received + len }
      if t1.bytes_received ≥ t1.file_size then
        match completeTransfer t1 intact with
        | some t2 => (tid, t2) :: rest
        | none => rest
      else (tid, t1) :: rest
    else (tid, t) :: handleBinary rest len intact

/-- Index of the first transfer in the table that is not complete and
has an open staging handle (the transfer the binary-message loop
selects). -/
def firstActive? : List (String × Transfer) → Option Nat
  | [] => none
  | (_, t) :: rest =>
    if !t.is_complete && t.file_handle then some 0
    else (firstActive? rest).map (fun j => j + 1)

end FileTransferMixin

namespace FileTransferMixin

/-- C7: an inbound binary chunk is appended to at most one transfer.
When no incoming transfer is active (not complete, open handle) the
table is returned unchanged (chunk dropped with a warning); otherwise
exactly the first active transfer absorbs the whole chunk — its
`bytes_received` grows by the chunk length, it completes (or is removed
on a failed integrity check) when the declared size is reached — and
every other entry of the table is untouched. -/
theorem handle_binary_single_transfer (tbl : List (String × Transfer))
    (len : Nat) (intact : Bool) :
    (firstActive? tbl = none → handleBinary tbl len intact = tbl) ∧
    (∀ i, firstActive? tbl = some i →
      ∃ tid t, tbl.get? i = some (tid, t) ∧ t.is_complete = false ∧
        t.file_handle = true ∧
        handleBinary tbl len intact =
          tbl.take i ++
            (if t.bytes_received + len ≥ t.file_size then
              (if intact then
                [(tid, { t with bytes_received := t.bytes_received + len, is_complete := true, file_handle := false })]
              else [])
            else
              [(tid, { t with bytes_received := t.bytes_received + len })]) ++
            tbl.drop (i + 1)) := by
  induction tbl with
  | nil =>
    exact ⟨fun _ => rfl, fun i h => by simp [firstActive?] at h⟩
  | cons hd rest ih =>
    obtain ⟨tid, t⟩ := hd
    by_cases hact : (!t.is_complete && t.file_handle) = true
    · obtain ⟨hnc, hfh⟩ := Bool.and_eq_true_iff.mp hact
      rw [Bool.not_eq_true'] at hnc
      constructor
      · intro h
        simp [firstActive?, hact] at h
      · intro i h
        simp only [firstActive?, hact, if_pos, Option.some.injEq] at h
        subst h
        refine ⟨tid, t, by simp, hnc, hfh, ?_⟩
        simp only [handleBinary, hact, if_true, List.take_zero,
          List.drop_succ_cons, List.drop_zero, List.nil_append]
        by_cases hge : t.bytes_received + len ≥ t.file_size
        · rw [if_pos hge, if_pos hge]
          simp only [completeTransfer, hnc, Bool.false_eq_true, if_false]
          by_cases hint : intact
          · subst hint
            simp
          · simp only [Bool.not_eq_true] at hint
            subst hint
            simp
        · rw [if_neg hge, if_neg hge]
          simp
    · have hstep : handleBinary ((tid, t) :: rest) len intact =
          (tid, t) :: handleBinary rest len intact := by
        simp only [handleBinary, hact, Bool.false_eq_true, if_false]
      constructor
      · intro h
        simp only [firstActive?, hact, Bool.false_eq_true, if_false,
          Option.map_eq_none'] at h
        rw [hstep, ih.1 h]
      · intro i h
        simp only [firstActive?, hact, Bool.false_eq_true, if_false,
          Option.map_eq_some'] at h
        obtain ⟨j, hj, hji⟩ := h
        subst hji
        obtain ⟨tid2, t2, hget, hncj, hfhj, heq⟩ := ih.2 j hj
        refine ⟨tid2, t2, by simpa using hget, hncj, hfhj, ?_⟩
        rw [hstep, heq]
        simp [List.take_succ_cons, List.drop_succ_cons]

/-- Witness for `handle_binary_single_transfer` on a two-entry table
whose first transfer is complete and whose second is active: the
7-byte chunk goes to the second entry only. -/
theorem handle_binary_single_transfer_witness :
    ∃ tid t,
      [("t1", Transfer.mk "a.txt".data 10 "c1" "t1" 10 true false none none),
       ("t2", Transfer.mk "b.txt".data 50 "c2" "t2" 3 false true
         (some "p2p_transfer_t2") none)].get? 1 = some (tid, t) ∧
      t.is_complete = false ∧ t.file_handle = true ∧
      handleBinary
        [("t1", Transfer.mk "a.txt".data 10 "c1" "t1" 10 true false none none),
         ("t2", Transfer.mk "b.txt".data 50 "c2" "t2" 3 false true
           (some "p2p_transfer_t2") none)] 7 true =
        [("t1", Transfer.mk "a.txt".data 10 "c1" "t1" 10 true false none none),
         ("t2", Transfer.mk "b.txt".data 50 "c2" "t2" 3 false true
           (some "p2p_transfer_t2") none)].take 1 ++
          (if t.bytes_received + 7 ≥ t.file_size then
            (if true then
              [(tid, { t with bytes_received := t.bytes_received + 7, is_complete := true, file_handle := false })]
            else [])
          else
            [(tid, { t with bytes_received := t.bytes_received + 7 })]) ++
          [("t1", Transfer.mk "a.txt".data 10 "c1" "t1" 10 true false none none),
           ("t2", Transfer.mk "b.txt".data 50 "c2" "t2" 3 false true
             (some "p2p_transfer_t2") none)].drop 2 :=
  (handle_binary_single_transfer _ 7 true).2 1 (by decide)

end FileTransferMixin

namespace FileTransferMixin

/-- State touched by the transfer-cleanup paths: the transfer table,
the identifier of the outgoing transfer (if any), and the set of
staging files currently existing on disk. -/
structure FtState where
  active_file_transfers : List (String × Transfer)
  outgoing_id : Option String
  files : List String
  deriving DecidableEq

/-- Model of `_cleanup_file_transfer` (file_transfer_mixin.py lines
400-411): when the id is in the table, close the staging handle,
delete the staging file if its path is set and the file exists, and
remove the entry from the table. -/
def cleanup_file_transfer (s : FtState) (tid : String) : FtState :=
  match s.active_file_transfers.lookup tid with
  | none => s
  | some t =>
    { active_file_transfers :=
        s.active_file_transfers.filter (fun p => p.1 ≠ tid)
      outgoing_id := s.outgoing_id
      files :=
        match t.temp_path with
        | some p => s.files.filter (fun q => q ≠ p)
        | none => s.files }

/-- Model of `reject_file` (file_transfer_mixin.py lines 535-551):
send the `file_reject` control message, then clean up the transfer if
it exists. -/
def reject_file (s : FtState) (tid : String) : FtState :=
  if (s.active_file_transfers.lookup tid).isSome then
    cleanup_file_transfer s tid
  else s

/-- Model of `cancel_file_transfer` (file_transfer_mixin.py lines
553-569): send `file_cancel`, clean up the incoming transfer if
present, and clear the outgoing transfer when its id matches. -/
def cancel_file_transfer (s : FtState) (tid : String) : FtState :=
  let s1 :=
    if (s.active_file_transfers.lookup tid).isSome then
      cleanup_file_transfer s tid
    else s
  if s1.outgoing_id = some tid then
    { s1 with outgoing_id := none }
  else s1

/-- Model of `_handle_file_timeout` (file_transfer_mixin.py lines
610-628): when the id is in the table, close the staging handle and
delete the table entry — the staging file itself is not removed. -/
def handle_file_timeout (s : FtState) (tid : String) : FtState :=
  if (s.active_file_transfers.lookup tid).isSome then
    { s with active_file_transfers :=
        s.active_file_transfers.filter (fun p => p.1 ≠ tid) }
  else s

/-- Concrete session state exercising the timeout cleanup: one
incoming transfer `t1`, accepted (open handle, staging path set) with a
partial staging file on disk. -/
def timeoutDemoState : FtState :=
  { active_file_transfers :=
      [("t1", Transfer.mk "doc.txt".data 100 "c0" "t1" 40 false true
        (some "p2p_transfer_t1") (some "save"))]
    outgoing_id := none
    files := ["p2p_transfer_t1"] }

/-- C2: evaluation at the failing input.  `reject_file` and
`cancel_file_transfer` delete the staging file (via
`_cleanup_file_transfer`), but processing a `file_timeout` control
message for the same accepted transfer only closes the handle and drops
the table entry: the partial staging file `p2p_transfer_t1` is still on
disk afterwards, contradicting the claim that it is absent after a
`file_timeout` is processed. -/
theorem handle_file_timeout_leaves_staging_file :
    (reject_file timeoutDemoState "t1").files = [] ∧
    (cancel_file_transfer timeoutDemoState "t1").files = [] ∧
    (handle_file_timeout timeoutDemoState "t1").active_file_transfers = [] ∧
    (handle_file_timeout timeoutDemoState "t1").files =
      ["p2p_transfer_t1"] := by
  refine ⟨by decide, by decide, by decide, by decide⟩

end FileTransferMixin

namespace Signaling

/-- Data of an `RTCSessionDescription`: the two fields serialized by
the signaling codec. -/
structure RTCSessionDescription where
  type : String
  sdp : String
  deriving DecidableEq

/-- Lower-case hexadecimal digit, as produced by Python `"%04x"`. -/
def hexDigit (n : Nat) : Char :=
  if n < 10 then Char.ofNat (48 + n) else Char.ofNat (87 + n)

/-- Four lower-case hex digits of `n < 0x10000` (Python `"\\u%04x"`
payload). -/
def toHex4 (n : Nat) : List Char :=
  [hexDigit (n / 4096 % 16), hexDigit (n / 256 % 16),
   hexDigit (n / 16 % 16), hexDigit (n % 16)]

/-- Escape of one character in `json.dumps` with the default
`ensure_ascii=True` (CPython `py_encode_basestring_ascii`): `"` and
`\` and the five short escapes specially, printable ASCII verbatim,
everything else as `\uXXXX`, with astral characters as a UTF-16
surrogate pair. -/
def escapeChar (c : Char) : List Char :=
  if c = '"' then ['\\', '"']
  else if c = '\\' then ['\\', '\\']
  else if c = Char.ofNat 8 then ['\\', 'b']
  else if c = Char.ofNat 12 then ['\\', 'f']
  else if c = '\n' then ['\\', 'n']
  else if c = '\r' then ['\\', 'r']
  else if c = '\t' then ['\\', 't']
  else if 0x20 ≤ c.toNat ∧ c.toNat ≤ 0x7e then [c]
  else if c.toNat < 0x10000 then '\\' :: 'u' :: toHex4 c.toNat
  else
    ('\\' :: 'u' :: toHex4 (0xD800 + (c.toNat - 0x10000) / 1024)) ++
    ('\\' :: 'u' :: toHex4 (0xDC00 + (c.toNat - 0x10000) % 1024))

/-- Escape of a character sequence. -/
def escapeList : List Char → List Char
  | [] => []
  | c :: rest => escapeChar c ++ escapeList rest

/-- JSON string literal for `s` (quote, escaped body, quote). -/
def jsonQuote (s : String) : List Char :=
  '"' :: (escapeList s.data ++ ['"'])

/-- Model of `json.dumps({"type": t, "sdp": s}, separators=(',', ':'))`
(signaling.py lines 26-30): the canonical object layout with the two
keys in insertion order and no whitespace. -/
def dumpsPair (d : RTCSessionDescription) : List Char :=
  Char.ofNat 123 ::
    (jsonQuote "type" ++ (':' :: jsonQuote d.type) ++
     (',' :: jsonQuote "sdp") ++ (':' :: jsonQuote d.sdp) ++
     [Char.ofNat 125])

/-- UTF-8 bytes of one character (`str.encode('utf-8')`). -/
def utf8EncodeChar (c : Char) : List Nat :=
  let n := c.toNat
  if n < 0x80 then [n]
  else if n < 0x800 then [0xC0 + n / 64, 0x80 + n % 64]
  else if n < 0x10000 then
    [0xE0 + n / 4096, 0x80 + n / 64 % 64, 0x80 + n % 64]
  else
    [0xF0 + n / 262144, 0x80 + n / 4096 % 64, 0x80 + n / 64 % 64,
     0x80 + n % 64]

/-- UTF-8 bytes of a character sequence. -/
def utf8Encode : List Char → List Nat
  | [] => []
  | c :: rest => utf8EncodeChar c ++ utf8Encode rest

/-- UTF-8 continuation byte test. -/
def isCont (b : Nat) : Bool := 0x80 ≤ b && b < 0xC0

/-- Two-byte UTF-8 sequence value (the lead-byte range 0xC2-0xDF
already excludes overlong forms). -/
def utf8Cont2 (b b2 : Nat) : Option Nat :=
  if isCont b2 then some ((b - 0xC0) * 64 + (b2 - 0x80)) else none

/-- Three-byte UTF-8 sequence value, rejecting overlong forms and
surrogates. -/
def utf8Cont3 (b b2 b3 : Nat) : Option Nat :=
  let n := (b - 0xE0) * 4096 + (b2 - 0x80) * 64 + (b3 - 0x80)
  if isCont b2 && isCont b3 && (0x800 ≤ n && (n < 0xD800 || 0xE000 ≤ n)) then
    some n
  else none

/-- Four-byte UTF-8 sequence value, rejecting overlong and
out-of-range forms. -/
def utf8Cont4 (b b2 b3 b4 : Nat) : Option Nat :=
  let n := (b - 0xF0) * 262144 + (b2 - 0x80) * 4096 + (b3 - 0x80) * 64 +
    (b4 - 0x80)
  if isCont b2 && isCont b3 && isCont b4 && (0x10000 ≤ n && n ≤ 0x10FFFF) then
    some n
  else none

/-- Fuel-driven core of strict UTF-8 decoding.  Each step consumes at
least one byte and one unit of fuel, so fuel equal to the input length
is always sufficient; the `0, _ :: _` case is then unreachable. -/
def utf8DecodeF : Nat → List Nat → Option (List Char)
  | _, [] => some []
  | 0, _ :: _ => none
  | fuel + 1, b :: bs =>
    if b < 0x80 then (utf8DecodeF fuel bs).map (fun cs => Char.ofNat b :: cs)
    else if 0xC2 ≤ b && b ≤ 0xDF then
      match bs with
      | b2 :: bs2 =>
        match utf8Cont2 b b2 with
        | some n => (utf8DecodeF fuel bs2).map (fun cs => Char.ofNat n :: cs)
        | none => none
      | [] => none
    else if 0xE0 ≤ b && b ≤ 0xEF then
      match bs with
      | b2 :: b3 :: bs3 =>
        match utf8Cont3 b b2 b3 with
        | some n => (utf8DecodeF fuel bs3).map (fun cs => Char.ofNat n :: cs)
        | none => none
      | _ => none
    else if 0xF0 ≤ b && b ≤ 0xF4 then
      match bs with
      | b2 :: b3 :: b4 :: bs4 =>
        match utf8Cont4 b b2 b3 b4 with
        | some n => (utf8DecodeF fuel bs4).map (fun cs => Char.ofNat n :: cs)
        | none => none
      | _ => none
    else none

/-- Strict UTF-8 decoding (`bytes.decode('utf-8')`): rejects stray
continuation bytes, overlong forms, surrogates, and out-of-range code
points. -/
def utf8Decode (bs : List Nat) : Option (List Char) :=
  utf8DecodeF bs.length bs

end Signaling

namespace Signaling

/-- Standard base64 alphabet (RFC 4648, as used by
`base64.b64encode`). -/
def b64Alphabet : List Char :=
  "ABCDEFGHIJKLMNOPQRSTUVWXYZabcdefghijklmnopqrstuvwxyz0123456789+/".data

/-- Character for a 6-bit group. -/
def b64Char (i : Nat) : Char := b64Alphabet.getD i 'A'

/-- Index scan used to invert the alphabet. -/
def b64IndexAux : List Char → Nat → Char → Option Nat
  | [], _, _ => none
  | a :: rest, i, c => if a = c then some i else b64IndexAux rest (i + 1) c

/-- Position of a character in the base64 alphabet, if any. -/
def b64Index (c : Char) : Option Nat := b64IndexAux b64Alphabet 0 c

/-- Model of `base64.b64encode` on a byte sequence: three bytes become
four alphabet characters, with `=` padding for a final group of one or
two bytes. -/
def b64encode : List Nat → List Char
  | [] => []
  | [a] => [b64Char (a / 4), b64Char (a % 4 * 16), '=', '=']
  | [a, b] => [b64Char (a / 4), b64Char (a % 4 * 16 + b / 16),
    b64Char (b % 16 * 4), '=']
  | a :: b :: c :: rest =>
    b64Char (a / 4) :: b64Char (a % 4 * 16 + b / 16) ::
      b64Char (b % 16 * 4 + c / 64) :: b64Char (c % 64) :: b64encode rest

/-- Quad-wise base64 decoding after the discard step: requires a
multiple of four characters with `=` padding only in the final quad
(binascii rejects other shapes with a padding error, modelled as
`none`). -/
def b64decodeQuads : List Char → Option (List Nat)
  | [] => some []
  | c1 :: c2 :: c3 :: c4 :: rest =>
    match b64Index c1, b64Index c2 with
    | some i1, some i2 =>
      if c3 = '=' then
        if c4 = '=' && rest.isEmpty then some [i1 * 4 + i2 / 16] else none
      else
        match b64Index c3 with
        | some i3 =>
          if c4 = '=' then
            if rest.isEmpty then
              some [i1 * 4 + i2 / 16, i2 % 16 * 16 + i3 / 4]
            else none
          else
            match b64Index c4 with
            | some i4 =>
              match b64decodeQuads rest with
              | some tail =>
                some ((i1 * 4 + i2 / 16) :: (i2 % 16 * 16 + i3 / 4) ::
                  (i3 % 4 * 64 + i4) :: tail)
              | none => none
            | none => none
        | none => none
    | _, _ => none
  | _ => none

/-- Model of `base64.b64decode` with the default `validate=False`:
characters outside the alphabet and `=` are discarded, then the
remaining text is decoded quad-wise. -/
def b64decode (cs : List Char) : Option (List Nat) :=
  b64decodeQuads (cs.filter (fun c => (b64Index c).isSome || c = '='))

end Signaling

namespace Signaling

/-- Hexadecimal digit value (`json` accepts both cases). -/
def hexVal (c : Char) : Option Nat :=
  if '0' ≤ c && c ≤ '9' then some (c.toNat - 48)
  else if 'a' ≤ c && c ≤ 'f' then some (c.toNat - 87)
  else if 'A' ≤ c && c ≤ 'F' then some (c.toNat - 55)
  else none

/-- Backslash short escapes of JSON strings. -/
def escMap (e : Char) : Option Char :=
  if e = '"' then some '"'
  else if e = '\\' then some '\\'
  else if e = '/' then some '/'
  else if e = 'b' then some (Char.ofNat 8)
  else if e = 'f' then some (Char.ofNat 12)
  else if e = 'n' then some '\n'
  else if e = 'r' then some '\r'
  else if e = 't' then some '\t'
  else none

/-- JSON string body scanner of `json.loads` (strict mode), applied
after the opening quote: plain characters up to the closing quote, with
backslash escapes, `\uXXXX` code units and UTF-16 surrogate-pair
recombination; raw control characters below 0x20 are rejected, as are
malformed escapes.  (CPython tolerates lone surrogates in `\u` escapes,
yielding strings Lean's `Char` cannot represent; they never occur in
output of `encode`, and the model rejects them.)  Returns the decoded
body and the remaining input. -/
def parseJStrF : Nat → List Char → Option (List Char × List Char)
  | _, [] => none
  | 0, _ :: _ => none
  | fuel + 1, c :: rest =>
    if c = '"' then some ([], rest)
    else if c = '\\' then
      match rest with
      | [] => none
      | e :: rest2 =>
        if e = 'u' then
          match rest2 with
          | h1 :: h2 :: h3 :: h4 :: rest3 =>
            match hexVal h1, hexVal h2, hexVal h3, hexVal h4 with
            | some a, some b, some g, some d =>
              if ((a * 16 + b) * 16 + g) * 16 + d < 0xD800 ∨
                  0xE000 ≤ ((a * 16 + b) * 16 + g) * 16 + d then
                match parseJStrF fuel rest3 with
                | some (s, r) =>
                  some (Char.ofNat (((a * 16 + b) * 16 + g) * 16 + d) :: s, r)
                | none => none
              else if ((a * 16 + b) * 16 + g) * 16 + d < 0xDC00 then
                match rest3 with
                | e2 :: u2 :: g1 :: g2 :: g3 :: g4 :: rest4 =>
                  if e2 = '\\' ∧ u2 = 'u' then
                    match hexVal g1, hexVal g2, hexVal g3, hexVal g4 with
                    | some a2, some b2, some c2, some d2 =>
                      if 0xDC00 ≤ ((a2 * 16 + b2) * 16 + c2) * 16 + d2 ∧
                          ((a2 * 16 + b2) * 16 + c2) * 16 + d2 < 0xE000 then
                        match parseJStrF fuel rest4 with
                        | some (s, r) =>
                          some (Char.ofNat (0x10000 +
                            ((((a * 16 + b) * 16 + g) * 16 + d) - 0xD800) *
                              1024 +
                            (((a2 * 16 + b2) * 16 + c2) * 16 + d2 - 0xDC00))
                            :: s, r)
                        | none => none
                      else none
                    | _, _, _, _ => none
                  else none
                | _ => none
              else none
            | _, _, _, _ => none
          | _ => none
        else
          match escMap e with
          | some ch =>
            match parseJStrF fuel rest2 with
            | some (s, r) => some (ch :: s, r)
            | none => none
          | none => none
    else if c.toNat < 0x20 then none
    else
      match parseJStrF fuel rest with
      | some (s, r) => some (c :: s, r)
      | none => none

/-- JSON string body scanner (see `parseJStrF`); fuel equal to the
input length always suffices since every step consumes at least one
character. -/
def parseJStr (cs : List Char) : Option (List Char × List Char) :=
  parseJStrF cs.length cs

/-- A JSON string token: an opening quote followed by a string body. -/
def parseJsonStringTok : List Char → Option (List Char × List Char)
  | c :: rest => if c = '"' then parseJStr rest else none
  | [] => none

/-- Model of `json.loads` restricted to the canonical serialization
layout the codec produces (`{"k1":"v1","k2":"v2"}`, two string-valued
members, no whitespace): returns the parsed object as an association
list in member order.  On output of `encode` this coincides with
`json.loads`. -/
def loadsPair (cs : List Char) : Option (List (String × String)) :=
  match cs with
  | c :: rest =>
    if c = Char.ofNat 123 then
      match parseJsonStringTok rest with
      | some (k1, r1) =>
        match r1 with
        | c2 :: r2 =>
          if c2 = ':' then
            match parseJsonStringTok r2 with
            | some (v1, r3) =>
              match r3 with
              | c3 :: r4 =>
                if c3 = ',' then
                  match parseJsonStringTok r4 with
                  | some (k2, r5) =>
                    match r5 with
                    | c4 :: r6 =>
                      if c4 = ':' then
                        match parseJsonStringTok r6 with
                        | some (v2, r7) =>
                          match r7 with
                          | [c5] =>
                            if c5 = Char.ofNat 125 then
                              some [(String.mk k1, String.mk v1),
                                (String.mk k2, String.mk v2)]
                            else none
                          | _ => none
                        | none => none
                      else none
                    | [] => none
                  | none => none
                else none
              | [] => none
            | none => none
          else none
        | [] => none
      | none => none
    else none
  | [] => none

/-- Model of `encode` (signaling.py lines 15-36): canonical JSON of the
two fields, UTF-8 encoded, base64 encoded. -/
def encode (description : RTCSessionDescription) : List Char :=
  b64encode (utf8Encode (dumpsPair description))

/-- Model of `decode` (signaling.py lines 39-74): strip the key,
require ASCII (`key.encode('ascii')`), base64-decode, UTF-8-decode,
JSON-parse, and require both the `type` and `sdp` fields, returning the
parsed data; every failure is `none` (`ValueError` in the source). -/
def decode (key : List Char) : Option (List (String × String)) :=
  if (PyStr.pyStrip key).all (fun c => c.toNat < 128) then
    match b64decode (PyStr.pyStrip key) with
    | some bytes =>
      match utf8Decode bytes with
      | some js =>
        match loadsPair js with
        | some kvs =>
          if (kvs.lookup "type").isSome && (kvs.lookup "sdp").isSome then
            some kvs
          else none
        | none => none
      | none => none
    | none => none
  else none

end Signaling

namespace Signaling

/-- Validity of a character's code point (from `Char.valid`). -/
theorem char_toNat_valid (c : Char) :
    c.toNat < 0xD800 ∨ (0xDFFF < c.toNat ∧ c.toNat < 0x110000) := c.valid

/-- The alphabet scan inverts the alphabet table. -/
theorem b64Index_b64Char : ∀ i, i < 64 → b64Index (b64Char i) = some i := by
  decide

/-- Alphabet characters: in the alphabet or padding, ASCII, and not
whitespace. -/
theorem b64Char_props : ∀ i, i < 64 →
    ((b64Index (b64Char i)).isSome || (b64Char i = '=')) = true ∧
    (b64Char i).toNat < 128 ∧ PyStr.isPySpace (b64Char i) = false := by
  decide

/-- Padding character: kept by the discard step, ASCII, not
whitespace, not in the alphabet. -/
theorem pad_props :
    ((b64Index '=').isSome || (('=' : Char) = '=')) = true ∧
    ('=' : Char).toNat < 128 ∧ PyStr.isPySpace '=' = false := by decide

/-- The alphabet has no padding character. -/
theorem b64Char_ne_pad : ∀ i, i < 64 → b64Char i ≠ '=' := by decide

/-- Every character of a base64 encoding of bytes survives the discard
step, is ASCII, and is not whitespace. -/
theorem b64encode_chars (bs : List Nat) (hb : ∀ b ∈ bs, b < 256) :
    ∀ c ∈ b64encode bs,
      ((b64Index c).isSome || (c = '=')) = true ∧
      c.toNat < 128 ∧ PyStr.isPySpace c = false := by
  induction bs using b64encode.induct with
  | case1 => simp [b64encode]
  | case2 a =>
    have ha : a < 256 := hb a (by simp)
    intro c hc
    simp only [b64encode, List.mem_cons, List.not_mem_nil, or_false] at hc
    rcases hc with rfl | rfl | rfl | rfl
    · exact b64Char_props _ (by omega)
    · exact b64Char_props _ (by omega)
    · exact pad_props
    · exact pad_props
  | case3 a b =>
    have ha : a < 256 := hb a (by simp)
    have hbb : b < 256 := hb b (by simp)
    intro c hc
    simp only [b64encode, List.mem_cons, List.not_mem_nil, or_false] at hc
    rcases hc with rfl | rfl | rfl | rfl
    · exact b64Char_props _ (by omega)
    · exact b64Char_props _ (by omega)
    · exact b64Char_props _ (by omega)
    · exact pad_props
  | case4 a b c rest ih =>
    have ha : a < 256 := hb a (by simp)
    have hbb : b < 256 := hb b (by simp)
    have hcc : c < 256 := hb c (by simp)
    have hrest : ∀ x ∈ rest, x < 256 := fun x hx => hb x (by simp [hx])
    intro x hx
    simp only [b64encode, List.mem_cons] at hx
    rcases hx with rfl | rfl | rfl | rfl | hx
    · exact b64Char_props _ (by omega)
    · exact b64Char_props _ (by omega)
    · exact b64Char_props _ (by omega)
    · exact b64Char_props _ (by omega)
    · exact ih hrest x hx

/-- Base64 quad decoding inverts encoding on byte sequences. -/
theorem b64decodeQuads_b64encode (bs : List Nat) (hb : ∀ b ∈ bs, b < 256) :
    b64decodeQuads (b64encode bs) = some bs := by
  induction bs using b64encode.induct with
  | case1 => rfl
  | case2 a =>
    have ha : a < 256 := hb a (by simp)
    simp [b64encode, b64decodeQuads,
      b64Index_b64Char (a / 4) (by omega),
      b64Index_b64Char (a % 4 * 16) (by omega)]
    omega
  | case3 a b =>
    have ha : a < 256 := hb a (by simp)
    have hbb : b < 256 := hb b (by simp)
    have hne : b64Char (b % 16 * 4) ≠ '=' := b64Char_ne_pad _ (by omega)
    simp [b64encode, b64decodeQuads,
      b64Index_b64Char (a / 4) (by omega),
      b64Index_b64Char (a % 4 * 16 + b / 16) (by omega),
      b64Index_b64Char (b % 16 * 4) (by omega), hne]
    constructor
    · omega
    · omega
  | case4 a b c rest ih =>
    have ha : a < 256 := hb a (by simp)
    have hbb : b < 256 := hb b (by simp)
    have hcc : c < 256 := hb c (by simp)
    have hrest : ∀ x ∈ rest, x < 256 := fun x hx => hb x (by simp [hx])
    have hne3 : b64Char (b % 16 * 4 + c / 64) ≠ '=' := b64Char_ne_pad _ (by omega)
    have hne4 : b64Char (c % 64) ≠ '=' := b64Char_ne_pad _ (by omega)
    simp [b64encode, b64decodeQuads,
      b64Index_b64Char (a / 4) (by omega),
      b64Index_b64Char (a % 4 * 16 + b / 16) (by omega),
      b64Index_b64Char (b % 16 * 4 + c / 64) (by omega),
      b64Index_b64Char (c % 64) (by omega), hne3, hne4, ih hrest]
    refine ⟨by omega, by omega, by omega⟩

/-- Base64 decoding inverts encoding on byte sequences. -/
theorem b64decode_b64encode (bs : List Nat) (hb : ∀ b ∈ bs, b < 256) :
    b64decode (b64encode bs) = some bs := by
  unfold b64decode
  rw [List.filter_eq_self.mpr (fun c hc => (b64encode_chars bs hb c hc).1)]
  exact b64decodeQuads_b64encode bs hb

end Signaling

namespace PyStr

/-- A list with no Python whitespace is untouched by `strip()`. -/
theorem pyStrip_eq_self_of_no_space (l : List Char)
    (h : ∀ c ∈ l, isPySpace c = false) : pyStrip l = l := by
  have h1 : List.dropWhile isPySpace l = l :=
    dropWhile_eq_self_of_head _ _
      (fun a ha => h a (List.mem_of_mem_head? ha))
  unfold pyStrip
  rw [h1]
  have h2 : List.dropWhile isPySpace l.reverse = l.reverse :=
    dropWhile_eq_self_of_head _ _
      (fun a ha => h a (by
        have := List.mem_of_mem_head? ha
        exact List.mem_reverse.mp this))
  rw [h2, List.reverse_reverse]

end PyStr

namespace Signaling

/-- ASCII characters UTF-8-encode to their single code-point byte. -/
theorem utf8EncodeChar_ascii (c : Char) (h : c.toNat < 0x80) :
    utf8EncodeChar c = [c.toNat] := by
  unfold utf8EncodeChar
  rw [if_pos h]

/-- UTF-8 bytes of an ASCII character sequence are below 256. -/
theorem utf8Encode_bytes_lt (cs : List Char)
    (h : ∀ c ∈ cs, c.toNat < 0x80) : ∀ b ∈ utf8Encode cs, b < 256 := by
  induction cs with
  | nil => simp [utf8Encode]
  | cons c rest ih =>
    intro b hb
    rw [utf8Encode, utf8EncodeChar_ascii c (h c (by simp))] at hb
    rcases List.mem_cons.mp hb with rfl | hb
    · have := h c (by simp)
      omega
    · exact ih (fun x hx => h x (by simp [hx])) b hb

/-- Fuel-general form: decoding inverts encoding on ASCII character
sequences whenever the fuel covers the length. -/
theorem utf8DecodeF_utf8Encode_ascii :
    ∀ (fuel : Nat) (cs : List Char), (∀ c ∈ cs, c.toNat < 0x80) →
    cs.length ≤ fuel → utf8DecodeF fuel (utf8Encode cs) = some cs := by
  intro fuel
  induction fuel with
  | zero =>
    intro cs h hlen
    have : cs = [] := List.length_eq_zero.mp (by omega)
    subst this
    rfl
  | succ fuel ih =>
    intro cs h hlen
    cases cs with
    | nil => rfl
    | cons c rest =>
      have hc : c.toNat < 0x80 := h c (by simp)
      have ihr := ih rest (fun x hx => h x (by simp [hx]))
        (by simp at hlen; omega)
      rw [utf8Encode, utf8EncodeChar_ascii c hc, List.singleton_append]
      simp only [utf8DecodeF]
      rw [if_pos hc, ihr, Option.map_some', Char.ofNat_toNat]

/-- The UTF-8 encoding of an ASCII sequence has one byte per
character. -/
theorem utf8Encode_length_ascii (cs : List Char)
    (h : ∀ c ∈ cs, c.toNat < 0x80) :
    (utf8Encode cs).length = cs.length := by
  induction cs with
  | nil => rfl
  | cons c rest ih =>
    rw [utf8Encode, utf8EncodeChar_ascii c (h c (by simp))]
    simp [ih (fun x hx => h x (by simp [hx]))]

/-- UTF-8 decoding inverts encoding on ASCII character sequences. -/
theorem utf8Decode_utf8Encode_ascii (cs : List Char)
    (h : ∀ c ∈ cs, c.toNat < 0x80) :
    utf8Decode (utf8Encode cs) = some cs := by
  unfold utf8Decode
  rw [utf8Encode_length_ascii cs h]
  exact utf8DecodeF_utf8Encode_ascii cs.length cs h le_rfl

end Signaling

namespace Signaling

/-- Hex digits round-trip through formatting and scanning. -/
theorem hexVal_hexDigit : ∀ m, m < 16 → hexVal (hexDigit m) = some m := by
  decide

/-- Hex digit characters are ASCII. -/
theorem hexDigit_ascii : ∀ m, m < 16 → (hexDigit m).toNat < 0x80 := by
  decide

/-- Every escape produces at least one character. -/
theorem escapeList_length_ge (s : List Char) :
    s.length ≤ (escapeList s).length := by
  induction s with
  | nil => simp [escapeList]
  | cons c rest ih =>
    rw [escapeList, List.length_append]
    have h1 : 1 ≤ (escapeChar c).length := by
      unfold escapeChar
      split
      · simp
      split
      · simp
      split
      · simp
      split
      · simp
      split
      · simp
      split
      · simp
      split
      · simp
      split
      · simp
      split
      · simp
      · simp
    simp only [List.length_cons]
    omega

/-- Characters emitted as hex digits are ASCII. -/
theorem toHex4_ascii (n : Nat) : ∀ x ∈ toHex4 n, x.toNat < 0x80 := by
  intro x hx
  unfold toHex4 at hx
  rcases List.mem_cons.mp hx with rfl | hx
  · exact hexDigit_ascii _ (by omega)
  rcases List.mem_cons.mp hx with rfl | hx
  · exact hexDigit_ascii _ (by omega)
  rcases List.mem_cons.mp hx with rfl | hx
  · exact hexDigit_ascii _ (by omega)
  rcases List.mem_cons.mp hx with rfl | hx
  · exact hexDigit_ascii _ (by omega)
  exact absurd hx (List.not_mem_nil x)

/-- Characters produced by the JSON escape are ASCII. -/
theorem escapeChar_ascii (c : Char) : ∀ x ∈ escapeChar c, x.toNat < 0x80 := by
  intro x hx
  unfold escapeChar at hx
  by_cases h1 : c = '"'
  · rw [if_pos h1] at hx
    rcases List.mem_cons.mp hx with rfl | hx
    · decide
    rcases List.mem_cons.mp hx with rfl | hx
    · decide
    exact absurd hx (List.not_mem_nil x)
  rw [if_neg h1] at hx
  by_cases h2 : c = '\\'
  · rw [if_pos h2] at hx
    rcases List.mem_cons.mp hx with rfl | hx
    · decide
    rcases List.mem_cons.mp hx with rfl | hx
    · decide
    exact absurd hx (List.not_mem_nil x)
  rw [if_neg h2] at hx
  by_cases h3 : c = Char.ofNat 8
  · rw [if_pos h3] at hx
    rcases List.mem_cons.mp hx with rfl | hx
    · decide
    rcases List.mem_cons.mp hx with rfl | hx
    · decide
    exact absurd hx (List.not_mem_nil x)
  rw [if_neg h3] at hx
  by_cases h4 : c = Char.ofNat 12
  · rw [if_pos h4] at hx
    rcases List.mem_cons.mp hx with rfl | hx
    · decide
    rcases List.mem_cons.mp hx with rfl | hx
    · decide
    exact absurd hx (List.not_mem_nil x)
  rw [if_neg h4] at hx
  by_cases h5 : c = '\n'
  · rw [if_pos h5] at hx
    rcases List.mem_cons.mp hx with rfl | hx
    · decide
    rcases List.mem_cons.mp hx with rfl | hx
    · decide
    exact absurd hx (List.not_mem_nil x)
  rw [if_neg h5] at hx
  by_cases h6 : c = '\r'
  · rw [if_pos h6] at hx
    rcases List.mem_cons.mp hx with rfl | hx
    · decide
    rcases List.mem_cons.mp hx with rfl | hx
    · decide
    exact absurd hx (List.not_mem_nil x)
  rw [if_neg h6] at hx
  by_cases h7 : c = '\t'
  · rw [if_pos h7] at hx
    rcases List.mem_cons.mp hx with rfl | hx
    · decide
    rcases List.mem_cons.mp hx with rfl | hx
    · decide
    exact absurd hx (List.not_mem_nil x)
  rw [if_neg h7] at hx
  by_cases h8 : 0x20 ≤ c.toNat ∧ c.toNat ≤ 0x7e
  · rw [if_pos h8] at hx
    rcases List.mem_cons.mp hx with rfl | hx
    · omega
    exact absurd hx (List.not_mem_nil x)
  rw [if_neg h8] at hx
  by_cases h9 : c.toNat < 0x10000
  · rw [if_pos h9] at hx
    rcases List.mem_cons.mp hx with rfl | hx
    · decide
    rcases List.mem_cons.mp hx with rfl | hx
    · decide
    exact toHex4_ascii _ x hx
  · rw [if_neg h9] at hx
    rcases List.mem_append.mp hx with hx | hx <;>
    · rcases List.mem_cons.mp hx with rfl | hx
      · decide
      rcases List.mem_cons.mp hx with rfl | hx
      · decide
      exact toHex4_ascii _ x hx

/-- Characters of an escaped sequence are ASCII. -/
theorem escapeList_ascii (s : List Char) :
    ∀ x ∈ escapeList s, x.toNat < 0x80 := by
  induction s with
  | nil => simp [escapeList]
  | cons c rest ih =>
    intro x hx
    rw [escapeList] at hx
    rcases List.mem_append.mp hx with hx | hx
    · exact escapeChar_ascii c x hx
    · exact ih x hx

end Signaling

namespace Signaling

/-- Scanning one plain (unescaped, non-control) character. -/
theorem parseJStrF_plain (c : Char) (t : List Char) (m : Nat)
    (h1 : ¬(c = '"')) (h2 : ¬(c = '\\')) (h3 : ¬(c.toNat < 0x20)) :
    parseJStrF (m + 1) (c :: t) =
      match parseJStrF m t with
      | some (s, r) => some (c :: s, r)
      | none => none := by
  rw [parseJStrF.eq_def]
  simp only [if_neg h1, if_neg h2, if_neg h3]

/-- Scanning one `\uXXXX` escape outside the surrogate range. -/
theorem parseJStrF_hex (t : List Char) (m : Nat) (n : Nat)
    (hn : n < 0x10000) (hval : n < 0xD800 ∨ 0xE000 ≤ n) :
    parseJStrF (m + 1) (('\\' :: 'u' :: toHex4 n) ++ t) =
      match parseJStrF m t with
      | some (s, r) => some (Char.ofNat n :: s, r)
      | none => none := by
  have e1 := hexVal_hexDigit (n / 4096 % 16) (by omega)
  have e2 := hexVal_hexDigit (n / 256 % 16) (by omega)
  have e3 := hexVal_hexDigit (n / 16 % 16) (by omega)
  have e4 := hexVal_hexDigit (n % 16) (by omega)
  have hv : ((n / 4096 % 16 * 16 + n / 256 % 16) * 16 + n / 16 % 16) * 16 +
      n % 16 = n := by omega
  rw [show ('\\' :: 'u' :: toHex4 n) ++ t =
    '\\' :: 'u' :: hexDigit (n / 4096 % 16) :: hexDigit (n / 256 % 16) ::
      hexDigit (n / 16 % 16) :: hexDigit (n % 16) :: t from by simp [toHex4]]
  rw [parseJStrF.eq_def]
  simp only [e1, e2, e3, e4]
  rw [hv]
  rw [if_neg (by decide), if_pos (by trivial), if_pos (by trivial),
    if_pos hval]

/-- Scanning a surrogate-pair escape (high then low surrogate). -/
theorem parseJStrF_twoHex (t : List Char) (m : Nat) (hi lo : Nat)
    (hhi1 : 0xD800 ≤ hi) (hhi2 : hi < 0xDC00)
    (hlo1 : 0xDC00 ≤ lo) (hlo2 : lo < 0xE000) :
    parseJStrF (m + 1)
      (('\\' :: 'u' :: toHex4 hi) ++ (('\\' :: 'u' :: toHex4 lo) ++ t)) =
      match parseJStrF m t with
      | some (s, r) =>
        some (Char.ofNat (0x10000 + (hi - 0xD800) * 1024 + (lo - 0xDC00)) ::
          s, r)
      | none => none := by
  have e1 := hexVal_hexDigit (hi / 4096 % 16) (by omega)
  have e2 := hexVal_hexDigit (hi / 256 % 16) (by omega)
  have e3 := hexVal_hexDigit (hi / 16 % 16) (by omega)
  have e4 := hexVal_hexDigit (hi % 16) (by omega)
  have e5 := hexVal_hexDigit (lo / 4096 % 16) (by omega)
  have e6 := hexVal_hexDigit (lo / 256 % 16) (by omega)
  have e7 := hexVal_hexDigit (lo / 16 % 16) (by omega)
  have e8 := hexVal_hexDigit (lo % 16) (by omega)
  have hv1 : ((hi / 4096 % 16 * 16 + hi / 256 % 16) * 16 + hi / 16 % 16) * 16 +
      hi % 16 = hi := by omega
  have hv2 : ((lo / 4096 % 16 * 16 + lo / 256 % 16) * 16 + lo / 16 % 16) * 16 +
      lo % 16 = lo := by omega
  rw [show ('\\' :: 'u' :: toHex4 hi) ++ (('\\' :: 'u' :: toHex4 lo) ++ t) =
    '\\' :: 'u' :: hexDigit (hi / 4096 % 16) :: hexDigit (hi / 256 % 16) ::
      hexDigit (hi / 16 % 16) :: hexDigit (hi % 16) ::
      ('\\' :: 'u' :: hexDigit (lo / 4096 % 16) :: hexDigit (lo / 256 % 16) ::
        hexDigit (lo / 16 % 16) :: hexDigit (lo % 16) :: t)
    from by simp [toHex4]]
  rw [parseJStrF.eq_def]
  simp only [e1, e2, e3, e4]
  rw [hv1]
  rw [if_neg (by decide), if_pos (by trivial), if_pos (by trivial),
    if_neg (by omega : ¬(hi < 55296 ∨ 57344 ≤ hi)), if_pos (by omega)]
  simp only [e5, e6, e7, e8]
  rw [hv2]
  rw [if_pos (by trivial), if_pos (by omega)]

end Signaling

namespace Signaling

/-- Crux of the JSON round-trip: scanning the escape of one character
recovers exactly that character and continues with the rest. -/
theorem parseJStrF_escapeChar (c : Char) (t : List Char) (m : Nat) :
    parseJStrF (m + 1) (escapeChar c ++ t) =
      match parseJStrF m t with
      | some (s, r) => some (c :: s, r)
      | none => none := by
  unfold escapeChar
  by_cases h1 : c = '"'
  · subst h1
    rw [if_pos rfl, List.cons_append, List.cons_append, List.nil_append,
      parseJStrF.eq_def]
    simp [escMap]
  rw [if_neg h1]
  by_cases h2 : c = '\\'
  · subst h2
    rw [if_pos rfl, List.cons_append, List.cons_append, List.nil_append,
      parseJStrF.eq_def]
    simp [escMap]
  rw [if_neg h2]
  by_cases h3 : c = Char.ofNat 8
  · subst h3
    rw [if_pos rfl, List.cons_append, List.cons_append, List.nil_append,
      parseJStrF.eq_def]
    simp [escMap]
  rw [if_neg h3]
  by_cases h4 : c = Char.ofNat 12
  · subst h4
    rw [if_pos rfl, List.cons_append, List.cons_append, List.nil_append,
      parseJStrF.eq_def]
    simp [escMap]
  rw [if_neg h4]
  by_cases h5 : c = '\n'
  · subst h5
    rw [if_pos rfl, List.cons_append, List.cons_append, List.nil_append,
      parseJStrF.eq_def]
    simp [escMap]
  rw [if_neg h5]
  by_cases h6 : c = '\r'
  · subst h6
    rw [if_pos rfl, List.cons_append, List.cons_append, List.nil_append,
      parseJStrF.eq_def]
    simp [escMap]
  rw [if_neg h6]
  by_cases h7 : c = '\t'
  · subst h7
    rw [if_pos rfl, List.cons_append, List.cons_append, List.nil_append,
      parseJStrF.eq_def]
    simp [escMap]
  rw [if_neg h7]
  by_cases h8 : 0x20 ≤ c.toNat ∧ c.toNat ≤ 0x7e
  · rw [if_pos h8, List.cons_append, List.nil_append]
    refine parseJStrF_plain c t m h1 h2 (by omega)
  rw [if_neg h8]
  by_cases h9 : c.toNat < 0x10000
  · rw [if_pos h9]
    have hval : c.toNat < 0xD800 ∨ 0xE000 ≤ c.toNat := by
      rcases char_toNat_valid c with h | ⟨ha, hb⟩
      · exact Or.inl h
      · exact Or.inr (by omega)
    rw [parseJStrF_hex t m c.toNat h9 hval]
    simp only [Char.ofNat_toNat]
  · rw [if_neg h9, List.append_assoc]
    have hup : c.toNat ≤ 0x10FFFF := by
      rcases char_toNat_valid c with h | ⟨ha, hb⟩
      · omega
      · omega
    rw [parseJStrF_twoHex t m _ _ (by omega) (by omega) (by omega) (by omega)]
    have hrec : 0x10000 +
        (0xD800 + (c.toNat - 0x10000) / 1024 - 0xD800) * 1024 +
        (0xDC00 + (c.toNat - 0x10000) % 1024 - 0xDC00) = c.toNat := by
      omega
    simp only [hrec, Char.ofNat_toNat]

end Signaling

namespace Signaling

/-- Scanning an escaped body up to the closing quote (fuel-general
form). -/
theorem parseJStrF_escapeList :
    ∀ (s : List Char) (k : Nat) (rest : List Char),
    parseJStrF (s.length + k + 1) (escapeList s ++ ('"' :: rest)) =
      some (s, rest) := by
  intro s
  induction s with
  | nil =>
    intro k rest
    rw [escapeList, List.nil_append, parseJStrF.eq_def]
    simp
  | cons c s ih =>
    intro k rest
    have hf : (c :: s).length + k + 1 = (s.length + k + 1) + 1 := by
      simp [List.length_cons]
      omega
    rw [hf, escapeList, List.append_assoc,
      parseJStrF_escapeChar c (escapeList s ++ ('"' :: rest)) _, ih k rest]

/-- Scanning an escaped body with the parser's own fuel. -/
theorem parseJStr_escapeList (s : List Char) (rest : List Char) :
    parseJStr (escapeList s ++ ('"' :: rest)) = some (s, rest) := by
  unfold parseJStr
  have hlen : (escapeList s ++ ('"' :: rest)).length =
      s.length + (((escapeList s).length - s.length) + rest.length) + 1 := by
    have := escapeList_length_ge s
    simp [List.length_append]
    omega
  rw [hlen]
  exact parseJStrF_escapeList s _ rest

/-- A serialized string token parses back to the string. -/
theorem parseJsonStringTok_jsonQuote (s : String) (rest : List Char) :
    parseJsonStringTok (jsonQuote s ++ rest) = some (s.data, rest) := by
  rw [show jsonQuote s ++ rest = '"' :: (escapeList s.data ++ ('"' :: rest))
    from by simp [jsonQuote]]
  rw [parseJsonStringTok]
  rw [if_pos rfl]
  exact parseJStr_escapeList s.data rest

/-- The canonical two-field object parses back to its members. -/
theorem loadsPair_dumpsPair (d : RTCSessionDescription) :
    loadsPair (dumpsPair d) = some [("type", d.type), ("sdp", d.sdp)] := by
  unfold dumpsPair
  simp only [loadsPair, List.cons_append, List.nil_append,
    List.append_assoc, parseJsonStringTok_jsonQuote]
  simp

end Signaling

namespace Signaling

/-- Characters of a serialized string token are ASCII. -/
theorem jsonQuote_ascii (s : String) : ∀ x ∈ jsonQuote s, x.toNat < 0x80 := by
  intro x hx
  unfold jsonQuote at hx
  rcases List.mem_cons.mp hx with rfl | hx
  · decide
  rcases List.mem_append.mp hx with hx | hx
  · exact escapeList_ascii s.data x hx
  rcases List.mem_cons.mp hx with rfl | hx
  · decide
  exact absurd hx (List.not_mem_nil x)

/-- The canonical serialization is pure ASCII. -/
theorem dumpsPair_ascii (d : RTCSessionDescription) :
    ∀ x ∈ dumpsPair d, x.toNat < 0x80 := by
  intro x hx
  unfold dumpsPair at hx
  rcases List.mem_cons.mp hx with rfl | hx
  · decide
  simp only [List.append_assoc, List.cons_append] at hx
  rcases List.mem_append.mp hx with hx | hx
  · exact jsonQuote_ascii _ x hx
  rcases List.mem_cons.mp hx with rfl | hx
  · decide
  rcases List.mem_append.mp hx with hx | hx
  · exact jsonQuote_ascii _ x hx
  rcases List.mem_cons.mp hx with rfl | hx
  · decide
  rcases List.mem_append.mp hx with hx | hx
  · exact jsonQuote_ascii _ x hx
  rcases List.mem_cons.mp hx with rfl | hx
  · decide
  rcases List.mem_append.mp hx with hx | hx
  · exact jsonQuote_ascii _ x hx
  rcases List.mem_cons.mp hx with rfl | hx
  · decide
  exact absurd hx (List.not_mem_nil x)

/-- C1: decoding an encoded session description recovers exactly the
original fields: for every description `d`, `decode (encode d)`
succeeds and returns data whose `type` member is `d.type` and whose
`sdp` member is `d.sdp` (in fact exactly the two-member object). -/
theorem decode_encode_roundtrip (d : RTCSessionDescription) :
    decode (encode d) = some [("type", d.type), ("sdp", d.sdp)] ∧
    (some [("type", d.type), ("sdp", d.sdp)]).bind
        (fun kvs => kvs.lookup "type") = some d.type ∧
    (some [("type", d.type), ("sdp", d.sdp)]).bind
        (fun kvs => kvs.lookup "sdp") = some d.sdp := by
  have hascii : ∀ c ∈ dumpsPair d, c.toNat < 0x80 := dumpsPair_ascii d
  have hbytes : ∀ b ∈ utf8Encode (dumpsPair d), b < 256 :=
    utf8Encode_bytes_lt _ hascii
  have hchars := b64encode_chars _ hbytes
  have h1 : PyStr.pyStrip (b64encode (utf8Encode (dumpsPair d))) =
      b64encode (utf8Encode (dumpsPair d)) :=
    PyStr.pyStrip_eq_self_of_no_space _ (fun c hc => (hchars c hc).2.2)
  have h3 : b64decode (b64encode (utf8Encode (dumpsPair d))) =
      some (utf8Encode (dumpsPair d)) := b64decode_b64encode _ hbytes
  have h4 := utf8Decode_utf8Encode_ascii _ hascii
  have h5 := loadsPair_dumpsPair d
  refine ⟨?_, by simp [List.lookup], by simp [List.lookup]⟩
  simp only [decode, encode, h1, h3, h4, h5]
  rw [if_pos (List.all_eq_true.mpr
    (fun x hx => by simpa using (hchars x hx).2.1))]
  simp [List.lookup]

end Signaling
